import Mathlib

/-!
Shallow embedding of the animation timeline engine of
`src/animation_controller.rs` (macroquad-tiled-redux).

Modelling conventions:
* `coarsetime::Duration` and `coarsetime::Instant` are wrappers around a `u64`
  tick count (1 tick = 2⁻³² s); both are modelled as `ℕ`.  All duration and
  instant arithmetic in the source (`+`, saturating `-`, `* n`, `/ n`, `<=`,
  `>=`) acts directly on the tick count, so it is modelled by the
  corresponding `ℕ` operation (truncated subtraction matches coarsetime's
  saturating subtraction; every subtraction in the translated code is guarded
  so the two agree on all reachable inputs).  The tick values occurring in
  the program stay far below 2⁶⁴, so `u64` overflow is not modelled.
* `f32` position/movement arithmetic is modelled over `ℚ` (exact).  The spec
  (§5) requires that durations, instants and movement vectors support exact
  arithmetic "without accumulating floating error beyond the
  explicitly-rounded position output".  IEEE special values (±∞, NaN), which
  can arise in the compression-ratio computation when the new total duration
  is zero, are modelled separately by `F32Class` below, mirroring `f32`
  division-by-zero semantics for exactly that computation.
* `Rust`'s `f32::round` (round half away from zero) is modelled by Mathlib's
  `round` (round half up); the two differ only at negative exact halves,
  which no claim depends on.
-/

/-- Output frame type from the source (`OutputFrame`): a sprite index plus a
position sample. -/
structure OutputFrame where
  tile_id : ℕ
  position : ℚ × ℚ
deriving DecidableEq

/-- Frame type from the source (`AnimationFrame`): a sprite index plus a
duration in ticks. -/
structure AnimationFrame where
  tile_id : ℕ
  duration : ℕ
deriving DecidableEq

/-- Template type from the source (`AnimationTemplate`, all fields kept;
`ordering`,
`blocks_turn` and `cancel_frame` are inert metadata, never read by the
controller logic). -/
structure AnimationTemplate where
  name : String
  gid : ℕ
  frames : List AnimationFrame
  ordering : ℕ
  max_compression : ℕ
  blocks_turn : Bool
  cancel_frame : Option ℕ

/-- Instance type from the source (`AnimationInstance`). -/
structure AnimationInstance where
  animation_start : ℕ
  frames : List AnimationFrame
  duration : ℕ
  movement : ℚ × ℚ
  start_position : ℚ × ℚ
  max_compression : ℕ
  is_compressed : Bool

/-- Sum of the durations of a frame list, in ticks: the source's
`frames.iter().map(|it| it.duration.as_ticks()).sum()` (used both by
`AnimationInstance::new` and by `compress`). -/
def sumDur (l : List AnimationFrame) : ℕ :=
  (l.map AnimationFrame.duration).sum

/-- Constructor `AnimationInstance::new`: copies the template's frames, total duration =
sum of the frame durations, `is_compressed = false`. -/
def AnimationInstance.new (start_time : ℕ) (template : AnimationTemplate)
    (movement : ℚ × ℚ) (start_position : ℚ × ℚ) : AnimationInstance where
  animation_start := start_time
  frames := template.frames
  duration := sumDur template.frames
  movement := movement
  start_position := start_position
  max_compression := template.max_compression
  is_compressed := false

/-- The frame-list walk of `AnimationInstance::compress` (the `for frame in
&self.frames` loop, lines 118–134): `start` is the running cursor, frames that
end at or before `current_time` are dropped, the frame straddling
`current_time` is shrunk from its remaining (unplayed) portion, and every
later frame is shrunk from its full duration; integer tick arithmetic
(`* p / 100` is u64 multiplication and truncating division). -/
def compressWalk (p current_time : ℕ) : ℕ → List AnimationFrame → List AnimationFrame
  | _, [] => []
  | start, f :: rest =>
    if start + f.duration ≤ current_time then
      compressWalk p current_time (start + f.duration) rest
    else if start < current_time ∧ current_time < start + f.duration then
      ⟨f.tile_id, (f.duration - (current_time - start)) * p / 100⟩ ::
        compressWalk p current_time (start + f.duration) rest
    else
      ⟨f.tile_id, f.duration * p / 100⟩ ::
        compressWalk p current_time (start + f.duration) rest

/-- Method `AnimationInstance::compress` (lines 109–147).  The compression-ratio
`k` and the movement scaling are `f32` in the source and are modelled over
`ℚ`; see `F32Class` below for the IEEE special-value refinement of the same
lines used by the division-by-zero claim. -/
def AnimationInstance.compress (inst : AnimationInstance) (current_time : ℕ) :
    AnimationInstance :=
  if 100 ≤ inst.max_compression then { inst with is_compressed := true }
  else
    let new_frames := compressWalk inst.max_compression current_time
      inst.animation_start inst.frames
    let new_duration := sumDur new_frames
    let k : ℚ := ((inst.duration * inst.max_compression : ℕ) : ℚ) /
      ((new_duration * 100 : ℕ) : ℚ)
    let new_movement : ℚ × ℚ := (inst.movement.1 / k, inst.movement.2 / k)
    let new_start_position : ℚ × ℚ :=
      (inst.start_position.1 + (inst.movement.1 - new_movement.1),
       inst.start_position.2 + (inst.movement.2 - new_movement.2))
    { animation_start := current_time
      frames := new_frames
      duration := new_duration
      movement := new_movement
      start_position := new_start_position
      max_compression := inst.max_compression
      is_compressed := true }

/-- Idle anchor type from the source (`IdleStart`): the anchor time and
position. -/
structure IdleStart where
  start_time : ℕ
  position : ℚ × ℚ
deriving DecidableEq

/-- Idle instance type from the source (`IdleInstance`). -/
structure IdleInstance where
  frames : List AnimationFrame
  duration : ℕ

/-- Constructor `IdleInstance::new`: copies the template's frames; duration =
sum of the frame durations. -/
def IdleInstance.new (template : AnimationTemplate) : IdleInstance where
  frames := template.frames
  duration := sumDur template.frames

/-- Controller type from the source (`AnimationController`). -/
structure AnimationController where
  animations : List AnimationInstance
  idle_interval : Option ℕ
  idle_animations : List IdleInstance
  idle_start : Option IdleStart

/-- Constructor `AnimationController::new` (= `Default::default()`). -/
def AnimationController.new : AnimationController where
  animations := []
  idle_interval := none
  idle_animations := []
  idle_start := none

/-- Method `AnimationController::update`: retains instances with
`animation_start + duration >= time` (the empty-queue check in the source is
a no-op on the retained list and is kept for fidelity). -/
def AnimationController.update (s : AnimationController) (time : ℕ) :
    AnimationController :=
  if s.animations.isEmpty then s
  else { s with animations :=
    s.animations.filter (fun i => decide (time ≤ i.animation_start + i.duration)) }

/-- The frame walk shared by `AnimationController::get_tile_id` and the tile
walk inside `get_idle_animation`: returns the first frame whose duration
exceeds the remaining time, or the sentinel `0` when the walk overruns the
list.  (`get_tile_id` returns `0` after the loop; `get_idle_animation`
initialises `tile_id = 0` and only overwrites it on a hit — same function.) -/
def tileWalk : ℕ → List AnimationFrame → ℕ
  | _, [] => 0
  | time, f :: rest => if time < f.duration then f.tile_id else tileWalk (time - f.duration) rest

/-- Method `AnimationController::get_tile_id`. -/
def AnimationController.get_tile_id (finish_time : ℕ) (inst : AnimationInstance) : ℕ :=
  tileWalk (finish_time - inst.animation_start) inst.frames

/-- Method `AnimationController::get_position`: linear interpolation with each axis
rounded (`f32::round` modelled by `round` over `ℚ`; `x / 0 = 0` stands in for
the unreachable zero-total-duration case). -/
def AnimationController.get_position (finish_time : ℕ) (inst : AnimationInstance) :
    ℚ × ℚ :=
  let duration : ℚ := ((finish_time - inst.animation_start : ℕ) : ℚ)
  let total : ℚ := (inst.duration : ℚ)
  let x := inst.start_position.1 + inst.movement.1 * duration / total
  let y := inst.start_position.2 + inst.movement.2 * duration / total
  (((round x : ℤ) : ℚ), ((round y : ℤ) : ℚ))

/-- The `while start + interval + duration <= now` loop of
`get_idle_animation`, with `step = interval + duration`.  The source loop
does not terminate when `step = 0` and `start ≤ now`; the model returns
`start` there, and every theorem touching the idle path assumes `0 < step`. -/
def idleLoopStart (step now start : ℕ) : ℕ :=
  if _h : 0 < step ∧ start + step ≤ now then idleLoopStart step now (start + step)
  else start
termination_by now - start
decreasing_by omega

/-- Method `AnimationController::get_idle_animation` (lines 267–296): requires the
idle interval, an idle instance and the idle anchor to all be set; advances
the anchor time by whole `interval + duration` periods, plays the idle frames
during `[start + interval, start + interval + duration)`, position pinned to
the anchor position. -/
def AnimationController.get_idle_animation (s : AnimationController) (now : ℕ) :
    Option OutputFrame :=
  match s.idle_interval, s.idle_animations.head?, s.idle_start with
  | some interval, some inst, some idle_start =>
    let start := idleLoopStart (interval + inst.duration) now idle_start.start_time
    let animation_start := start + interval
    if now < animation_start then none
    else some ⟨tileWalk (now - animation_start) inst.frames, idle_start.position⟩
  | _, _, _ => none

/-- Method `AnimationController::get_frame`. -/
def AnimationController.get_frame (s : AnimationController) (time : ℕ) :
    Option OutputFrame :=
  match s.animations.head? with
  | some inst =>
      some ⟨AnimationController.get_tile_id time inst,
            AnimationController.get_position time inst⟩
  | none => s.get_idle_animation time

/-- The loop body of `AnimationController::compress`: compress an instance
unless it is already compressed. -/
def compressInstanceIfNeeded (time : ℕ) (a : AnimationInstance) : AnimationInstance :=
  if a.is_compressed then a else a.compress time

/-- Method `AnimationController::compress` (lines 211–217): compress every
not-yet-compressed queued instance in place. -/
def AnimationController.compress (s : AnimationController) (time : ℕ) :
    AnimationController :=
  { s with animations := s.animations.map (compressInstanceIfNeeded time) }

/-- Method `AnimationController::add_animation` (lines 190–209).  The source calls
`self.compress(start_time)` only when the queue is non-empty; mapping the
guarded per-instance compression over the empty queue is the identity, so the
two formulations agree.  The `match … .getLast?` mirrors the source's
`if !self.animations.is_empty()` / `last().unwrap()` split: `getLast?` of the
compressed queue is `none` exactly when the queue was empty. -/
def AnimationController.add_animation (s : AnimationController) (start_time : ℕ)
    (template : AnimationTemplate) (movement : ℚ × ℚ) (start_position : ℚ × ℚ) :
    AnimationController :=
  if template.max_compression = 0 then s
  else
    let q := (s.compress start_time).animations
    let new_instance :=
      match q.getLast? with
      | none => AnimationInstance.new start_time template movement start_position
      | some last_instance =>
          let new_start_time := last_instance.animation_start + last_instance.duration
          let new_start_position : ℚ × ℚ :=
            (last_instance.start_position.1 + last_instance.movement.1,
             last_instance.start_position.2 + last_instance.movement.2)
          (AnimationInstance.new new_start_time template movement
            new_start_position).compress new_start_time
    { s with
      idle_start := some ⟨new_instance.animation_start + new_instance.duration,
        (new_instance.start_position.1 + new_instance.movement.1,
         new_instance.start_position.2 + new_instance.movement.2)⟩
      animations := q ++ [new_instance] }

/-- Seconds → ticks: coarsetime's `Duration::from_secs` (`sec << 32`),
used by `add_idle_animation` on its `interval` argument. -/
def secsToTicks (s : ℕ) : ℕ := s * 2 ^ 32

/-- Method `AnimationController::add_idle_animation`. -/
def AnimationController.add_idle_animation (s : AnimationController)
    (template : AnimationTemplate) (interval : ℕ) : AnimationController :=
  { s with
    idle_interval := some (secsToTicks interval)
    idle_animations := s.idle_animations ++ [IdleInstance.new template] }

/-- One `add_animation` call's arguments, for reasoning about call sequences. -/
structure CallArgs where
  start_time : ℕ
  template : AnimationTemplate
  movement : ℚ × ℚ
  start_position : ℚ × ℚ

/-- Apply a sequence of `add_animation` calls to a controller. -/
def applyCalls (s : AnimationController) : List CallArgs → AnimationController
  | [] => s
  | c :: rest =>
      applyCalls (s.add_animation c.start_time c.template c.movement c.start_position) rest

/-- The queue-chaining relation of spec P1: each instance starts exactly when
its predecessor ends. -/
def chainedQueue (l : List AnimationInstance) : Prop :=
  List.Chain' (fun a b => b.animation_start = a.animation_start + a.duration) l

/-- Milliseconds → ticks.  Modelled from the `coarsetime` dependency (not
part of this repository): one second is 2³² ticks and `Duration::from_millis`
computes `(millis * 9_223_372_036_854_776) >> 31` (the constant is `2⁶³/1000`
rounded; ≈ `millis · 2³² / 1000`).  The model is validated against the
repository's own tests, which assert that the frame list
`[100, 200, 400, 300]` ms has a total duration that reads back as `999` ms
(and as `499` ms after 50 % compression) and attribute this to "a coarsetime
crate bug". -/
def msToTicks (ms : ℕ) : ℕ := ms * 9223372036854776 / 2 ^ 31

/-- Ticks → milliseconds: coarsetime's `Duration::as_millis`,
`(ticks * 125) >> 29` (= `ticks · 1000 / 2³²`). -/
def ticksToMs (ticks : ℕ) : ℕ := ticks * 125 / 2 ^ 29

/-- The `From<&animation::Frame> for AnimationFrame` conversion (lines
18–25): per-frame duration given in whole milliseconds, converted to ticks. -/
def animationFrameFromMs (tile_id ms : ℕ) : AnimationFrame :=
  ⟨tile_id, msToTicks ms⟩

/-- The queue invariant maintained by `add_animation`: the queue is exactly
chained, and as soon as it holds two or more instances, all of them are
compressed (an uncompressed instance can only be the sole element, freshly
appended to an empty queue). -/
def QueueInv (s : AnimationController) : Prop :=
  chainedQueue s.animations ∧
    (2 ≤ s.animations.length → ∀ a ∈ s.animations, a.is_compressed = true)

/-- Minimal IEEE `f32` value classification, for the compression-ratio
computation of `compress` (lines 136–138), whose divisions can hit zero
denominators: a finite value (kept exact over `ℚ`), a (±)-infinity, or NaN.
Signs of infinities are not tracked — only the finite/infinite/NaN class and
the exact value of the finite case matter to the claims. -/
inductive F32Class where
  | fin (q : ℚ)
  | posInf
  | nan
deriving DecidableEq

/-- IEEE division of two nonnegative integers cast to `f32` (the source's
`(u64 as f32) / (u64 as f32)`): `x / 0 = ∞` for `x ≠ 0`, `0 / 0 = NaN`,
otherwise finite.  The `f32` rounding of the casts preserves the
zero/nonzero classification; the finite case keeps the exact rational
quotient (the spec's exact-arithmetic reading). -/
def natDivF32 (num den : ℕ) : F32Class :=
  if den = 0 then (if num = 0 then F32Class.nan else F32Class.posInf)
  else F32Class.fin ((num : ℚ) / (den : ℚ))

/-- IEEE division of a finite `f32` by a classified value: dividing by an
infinity gives `0`, by NaN gives NaN, by finite `0` gives an infinity
(or NaN for `0 / 0`). -/
def divF32ByClass (m : ℚ) (k : F32Class) : F32Class :=
  match k with
  | F32Class.nan => F32Class.nan
  | F32Class.posInf => F32Class.fin 0
  | F32Class.fin q =>
      if q = 0 then (if m = 0 then F32Class.nan else F32Class.posInf)
      else F32Class.fin (m / q)

/-- IEEE refinement of `compress` line 137: the classification of the
compression ratio `k = (duration * max_compression) as f32 /
(new_duration * 100) as f32`. -/
def compressRatioClass (inst : AnimationInstance) (current_time : ℕ) : F32Class :=
  natDivF32 (inst.duration * inst.max_compression)
    (sumDur (compressWalk inst.max_compression current_time
      inst.animation_start inst.frames) * 100)

/-- IEEE refinement of `compress` line 138: the classification of the two
axes of `new_movement = (movement.0 / k, movement.1 / k)`. -/
def compressMovementClass (inst : AnimationInstance) (current_time : ℕ) :
    F32Class × F32Class :=
  (divF32ByClass inst.movement.1 (compressRatioClass inst current_time),
   divF32ByClass inst.movement.2 (compressRatioClass inst current_time))

/-- Concrete instance for the C1 counterexample: two frames of 100 and 200
ticks, 50 % compression ceiling, compressed 50 ticks into the first frame. -/
def instC1 : AnimationInstance where
  animation_start := 0
  frames := [⟨1, 100⟩, ⟨2, 200⟩]
  duration := 300
  movement := (0, 0)
  start_position := (0, 0)
  max_compression := 50
  is_compressed := false

/-- Concrete template with `max_compression = 0`, for the C6 witness. -/
def tplZero : AnimationTemplate where
  name := "noop"
  gid := 1
  frames := [⟨1, 100⟩]
  ordering := 0
  max_compression := 0
  blocks_turn := true
  cancel_frame := none

/-- Concrete template with `max_compression = 50`, for the C10 witness. -/
def tplFifty : AnimationTemplate where
  name := "walk"
  gid := 2
  frames := [⟨1, 100⟩, ⟨2, 200⟩]
  ordering := 0
  max_compression := 50
  blocks_turn := true
  cancel_frame := none

/-- Concrete template whose frames carry the repository test suite's
millisecond durations `[100, 200, 400, 300]` (total 1000 ms), converted to
ticks by the `From<&animation::Frame>` conversion, for C9. -/
def tplMs : AnimationTemplate where
  name := "walk"
  gid := 3
  frames := [animationFrameFromMs 1 100, animationFrameFromMs 2 200,
             animationFrameFromMs 3 400, animationFrameFromMs 4 300]
  ordering := 0
  max_compression := 100
  blocks_turn := true
  cancel_frame := none

/-- Concrete single-frame instance ending at tick 100, for the C5
counterexample. -/
def instC5 : AnimationInstance where
  animation_start := 0
  frames := [⟨1, 100⟩]
  duration := 100
  movement := (0, 0)
  start_position := (0, 0)
  max_compression := 100
  is_compressed := false

/-- Controller holding exactly `instC5` and no idle configuration, for the
C5 counterexample. -/
def ctrlC5 : AnimationController where
  animations := [instC5]
  idle_interval := none
  idle_animations := []
  idle_start := none

/-- Controller holding a single instance ending at tick 100 and no idle
configuration, for the C5 witness. -/
def ctrlC5w : AnimationController where
  animations := [instC5]
  idle_interval := none
  idle_animations := []
  idle_start := none

/-- Concrete instance for the C7 counterexample: a single zero-duration
frame (total duration 0, as the data model permits — durations are only
required to be ≥ 0), nonzero movement, 50 % ceiling.  Compressing it at any
later time empties the frame list with a `0 / 0` ratio. -/
def instC7 : AnimationInstance where
  animation_start := 0
  frames := [⟨1, 0⟩]
  duration := 0
  movement := (3, 4)
  start_position := (0, 0)
  max_compression := 50
  is_compressed := false

/-- Concrete instance for the C7 witness: one 10-tick frame, 50 % ceiling,
compressed past its end (`current_time = 20`). -/
def instC7w : AnimationInstance where
  animation_start := 0
  frames := [⟨1, 10⟩]
  duration := 10
  movement := (5, -5)
  start_position := (2, 3)
  max_compression := 50
  is_compressed := false

/-- Concrete idle instance (one 5-tick frame) for the C8 witness. -/
def idleInstC8 : IdleInstance where
  frames := [⟨7, 5⟩]
  duration := 5

/-- Concrete controller for the C8 witness: empty queue, idle interval 10
ticks, idle anchor at time 0, position (100, 100). -/
def ctrlC8w : AnimationController where
  animations := []
  idle_interval := some 10
  idle_animations := [idleInstC8]
  idle_start := some ⟨0, (100, 100)⟩

/-- Both branches of `AnimationInstance::compress` set `is_compressed`. -/
theorem compress_is_compressed (inst : AnimationInstance) (t : ℕ) :
    (inst.compress t).is_compressed = true := by
  unfold AnimationInstance.compress
  split <;> rfl

/-- The guarded per-instance compression always leaves the flag set. -/
theorem compressInstanceIfNeeded_is_compressed (t : ℕ) (a : AnimationInstance) :
    (compressInstanceIfNeeded t a).is_compressed = true := by
  unfold compressInstanceIfNeeded
  split
  · assumption
  · exact compress_is_compressed a t

/-- The guarded per-instance compression skips already-compressed instances. -/
theorem compressInstanceIfNeeded_of_compressed (t : ℕ) (a : AnimationInstance)
    (h : a.is_compressed = true) : compressInstanceIfNeeded t a = a := by
  unfold compressInstanceIfNeeded
  rw [if_pos h]

/-- Composing the guarded per-instance compression is the same as applying it
once. -/
theorem compressInstanceIfNeeded_idem (t t' : ℕ) (a : AnimationInstance) :
    compressInstanceIfNeeded t' (compressInstanceIfNeeded t a) =
      compressInstanceIfNeeded t a :=
  compressInstanceIfNeeded_of_compressed t' _
    (compressInstanceIfNeeded_is_compressed t a)

/-- Mapping the guarded compression over a list of already-compressed
instances is the identity. -/
theorem map_compressInstanceIfNeeded_of_compressed (t : ℕ) :
    ∀ l : List AnimationInstance, (∀ a ∈ l, a.is_compressed = true) →
      l.map (compressInstanceIfNeeded t) = l
  | [], _ => rfl
  | a :: rest, h => by
    simp only [List.map_cons]
    rw [compressInstanceIfNeeded_of_compressed t a (h a (by simp)),
      map_compressInstanceIfNeeded_of_compressed t rest
        (fun b hb => h b (by simp [hb]))]

/-- C2: compressing an `AnimationInstance` preserves its total end position
exactly on both axes: `start_position + movement` is unchanged by
`compress(currentTime)`, for every instance, every compression ceiling and
every current time (the early-return branch changes neither field, and the
main branch adds `movement − new_movement` to `start_position` while
replacing `movement` by `new_movement`). -/
theorem compress_preserves_total_end_position (inst : AnimationInstance) (t : ℕ) :
    (inst.compress t).start_position.1 + (inst.compress t).movement.1 =
      inst.start_position.1 + inst.movement.1 ∧
    (inst.compress t).start_position.2 + (inst.compress t).movement.2 =
      inst.start_position.2 + inst.movement.2 := by
  unfold AnimationInstance.compress
  split
  · exact ⟨rfl, rfl⟩
  · constructor <;> (dsimp only; ring)

/-- C3: compression is idempotent per instance: the compression entry point
(the loop body of `AnimationController::compress`, which skips instances with
`is_compressed == true`) is a no-op on an already-compressed instance, so for
every instance and every controller, compressing at `t` and then at any `t'`
yields exactly the state of compressing at `t` once. -/
theorem compress_idempotent (s : AnimationController) (t t' : ℕ) :
    (∀ a : AnimationInstance,
      compressInstanceIfNeeded t' (compressInstanceIfNeeded t a) =
        compressInstanceIfNeeded t a) ∧
    (s.compress t).compress t' = s.compress t := by
  refine ⟨compressInstanceIfNeeded_idem t t', ?_⟩
  unfold AnimationController.compress
  simp only [List.map_map]
  congr 1
  have : ∀ l : List AnimationInstance,
      l.map (compressInstanceIfNeeded t' ∘ compressInstanceIfNeeded t) =
        l.map (compressInstanceIfNeeded t) := by
    intro l
    induction l with
    | nil => rfl
    | cons a rest ih =>
        simp only [List.map_cons, Function.comp_apply, ih,
          compressInstanceIfNeeded_idem]
  exact this s.animations

/-- C6: adding an animation from a template with `max_compression == 0` is a
caller-visible no-op: the whole controller state is returned unchanged. -/
theorem add_animation_zero_compression_noop (s : AnimationController) (t : ℕ)
    (tpl : AnimationTemplate) (mv pos : ℚ × ℚ) (h : tpl.max_compression = 0) :
    s.add_animation t tpl mv pos = s := by
  unfold AnimationController.add_animation
  rw [if_pos h]

/-- Witness for C6 at a concrete input: the zero-compression template is
rejected and the fresh controller is returned unchanged. -/
theorem add_animation_zero_compression_noop_witness :
    tplZero.max_compression = 0 ∧
      AnimationController.new.add_animation 3 tplZero (1, 2) (4, 5) =
        AnimationController.new :=
  ⟨rfl, add_animation_zero_compression_noop AnimationController.new 3 tplZero
    (1, 2) (4, 5) rfl⟩

/-- C10: every non-rejected `add_animation` call overwrites the idle anchor
with the appended instance's end: the new queue tail `ni` satisfies
`idle_start = some (ni.animation_start + ni.duration,
ni.start_position + ni.movement)`, replacing any previous anchor. -/
theorem add_animation_overwrites_idle_anchor (s : AnimationController) (t : ℕ)
    (tpl : AnimationTemplate) (mv pos : ℚ × ℚ) (h : tpl.max_compression ≠ 0) :
    ∃ ni, (s.add_animation t tpl mv pos).animations.getLast? = some ni ∧
      (s.add_animation t tpl mv pos).idle_start =
        some ⟨ni.animation_start + ni.duration,
          (ni.start_position.1 + ni.movement.1,
           ni.start_position.2 + ni.movement.2)⟩ := by
  unfold AnimationController.add_animation
  rw [if_neg h]
  exact ⟨_, by rw [List.getLast?_concat], rfl⟩

/-- Witness for C10 at a concrete input: adding a 50 %-compression template
to a fresh controller anchors the idle slot at the new tail's end. -/
theorem add_animation_overwrites_idle_anchor_witness :
    tplFifty.max_compression ≠ 0 ∧
    ∃ ni, (AnimationController.new.add_animation 7 tplFifty (6, 8)
        (1, 1)).animations.getLast? = some ni ∧
      (AnimationController.new.add_animation 7 tplFifty (6, 8)
        (1, 1)).idle_start =
        some ⟨ni.animation_start + ni.duration,
          (ni.start_position.1 + ni.movement.1,
           ni.start_position.2 + ni.movement.2)⟩ :=
  ⟨by decide, add_animation_overwrites_idle_anchor AnimationController.new 7
    tplFifty (6, 8) (1, 1) (by decide)⟩

/-- C9 (code bug): the millisecond → tick → millisecond round trip of the
engine's duration representation is lossy even for typical frame durations:
a single 100 ms frame reads back as 99 ms, and the repository test suite's
frame list `[100, 200, 400, 300]` ms (total 1000 ms) builds an
`AnimationInstance` whose total duration reads back as 999 ms — exactly the
values the repository's own tests assert while calling this "a coarsetime
crate bug". -/
theorem ms_roundtrip_lossy :
    ticksToMs (animationFrameFromMs 1 100).duration = 99 ∧
    ticksToMs (AnimationInstance.new 0 tplMs (0, 0) (0, 0)).duration = 999 := by
  constructor <;> decide

/-- Unfolding lemma: sum of durations of an empty frame list. -/
theorem sumDur_nil : sumDur [] = 0 := rfl

/-- Unfolding lemma: sum of durations of a cons. -/
theorem sumDur_cons (f : AnimationFrame) (l : List AnimationFrame) :
    sumDur (f :: l) = f.duration + sumDur l := by
  simp [sumDur]

/-- Below the early-return ceiling, the compressed frame list is the
`compressWalk` of the original frames. -/
theorem compress_frames_of_lt (inst : AnimationInstance) (t : ℕ)
    (h : inst.max_compression < 100) :
    (inst.compress t).frames =
      compressWalk inst.max_compression t inst.animation_start inst.frames := by
  unfold AnimationInstance.compress
  rw [if_neg (by omega)]

/-- The compression walk drops a fully-played prefix (every frame of `pre`
ends at or before `t`) and continues from the accumulated cursor. -/
theorem compressWalk_append_of_played (p t : ℕ) (rest : List AnimationFrame) :
    ∀ (pre : List AnimationFrame) (start : ℕ), start + sumDur pre ≤ t →
      compressWalk p t start (pre ++ rest) =
        compressWalk p t (start + sumDur pre) rest
  | [], start, _ => by simp [sumDur_nil]
  | g :: pre, start, h => by
    rw [sumDur_cons] at h ⊢
    rw [List.cons_append]
    conv_lhs => rw [compressWalk]
    rw [if_pos (by omega : start + g.duration ≤ t)]
    rw [compressWalk_append_of_played p t rest pre (start + g.duration) (by omega)]
    rw [Nat.add_assoc]

/-- Every frame whose cursor lies strictly after `t` is kept and shrunk from
its full duration. -/
theorem compressWalk_of_future (p t : ℕ) :
    ∀ (l : List AnimationFrame) (start : ℕ), t < start →
      compressWalk p t start l =
        l.map (fun g => ⟨g.tile_id, g.duration * p / 100⟩)
  | [], _, _ => rfl
  | g :: rest, start, h => by
    unfold compressWalk
    rw [if_neg (by omega), if_neg (by omega)]
    rw [List.map_cons]
    congr 1
    exact compressWalk_of_future p t rest (start + g.duration) (by omega)

/-- Counterexample to C1 as stated: for the instance `instC1` (frames of 100
and 200 ticks, ceiling 50 %) compressed at `current_time = 50` (strictly
inside the first frame), the straddling frame comes out with duration
`(100 − 50) · 50 / 100 = 25` ticks — shrunk from its remaining 50 ticks —
whereas the claim's rule (shrink from the full original duration) predicts
`100 · 50 / 100 = 50` ticks. -/
theorem compress_straddled_full_duration_false :
    (instC1.compress 50).frames = [⟨1, 25⟩, ⟨2, 100⟩] ∧
    (instC1.compress 50).frames ≠ [⟨1, 50⟩, ⟨2, 100⟩] := by
  decide

/-- C1 (amended): in `compress(currentTime)` with ceiling < 100, when
`currentTime` falls strictly inside a frame `f` (cursor < currentTime <
cursor + f.duration), the already-played frames are dropped, the straddling
frame is shrunk to `(remaining unplayed portion) * maxCompressionPercent /
100` — computed from its remaining duration, not its full original
duration — and every subsequent frame is shrunk to
`duration * maxCompressionPercent / 100`, kept in order. -/
theorem compress_straddled_frame_remaining (d p t start : ℕ)
    (pre post : List AnimationFrame) (f : AnimationFrame)
    (mv sp : ℚ × ℚ) (co : Bool)
    (hp : p < 100)
    (h1 : start + sumDur pre < t)
    (h2 : t < start + sumDur pre + f.duration) :
    (AnimationInstance.compress
        ⟨start, pre ++ f :: post, d, mv, sp, p, co⟩ t).frames =
      ⟨f.tile_id, (f.duration - (t - (start + sumDur pre))) * p / 100⟩ ::
        post.map (fun g => ⟨g.tile_id, g.duration * p / 100⟩) := by
  rw [compress_frames_of_lt _ _ hp]
  show compressWalk p t start (pre ++ f :: post) = _
  rw [compressWalk_append_of_played p t (f :: post) pre start (le_of_lt h1)]
  unfold compressWalk
  rw [if_neg (by omega), if_pos (by omega : start + sumDur pre < t ∧
    t < start + sumDur pre + f.duration)]
  congr 1
  exact compressWalk_of_future p t post (start + sumDur pre + f.duration) (by omega)

/-- Witness for the amended C1 at a concrete input: ceiling 50 %, one
100-tick frame straddled at t = 50 followed by one 200-tick frame. -/
theorem compress_straddled_frame_remaining_witness :
    (50 : ℕ) < 100 ∧ (0 : ℕ) + sumDur [] < 50 ∧
      50 < 0 + sumDur [] + (100 : ℕ) ∧
    (AnimationInstance.compress
        ⟨0, [] ++ (⟨1, 100⟩ : AnimationFrame) :: [⟨2, 200⟩], 300, (0, 0),
          (0, 0), 50, false⟩ 50).frames =
      ⟨1, (100 - (50 - (0 + sumDur []))) * 50 / 100⟩ ::
        [(⟨2, 200⟩ : AnimationFrame)].map
          (fun g => ⟨g.tile_id, g.duration * 50 / 100⟩) :=
  ⟨by decide, by decide, by decide,
    compress_straddled_frame_remaining 300 50 50 0 [] [⟨2, 200⟩] ⟨1, 100⟩
      (0, 0) (0, 0) false (by decide) (by decide) (by decide)⟩

/-- Counterexample to C5 as stated: a controller holding the single instance
`instC5` (start 0, duration 100) with no idle animation configured, queried
at `now = 100 = animation_start + totalDuration`: `update` retains the
instance (the retain predicate is `start + duration >= now`) and `get_frame`
returns a frame (the sentinel-index fallback), not `None`, although
`now >= animation_start + totalDuration`. -/
theorem get_frame_at_exact_end_not_none :
    ((ctrlC5.update 100).get_frame 100).isSome = true := by
  rfl

/-- C5 (amended): for a controller holding a single queued instance and no
idle animation configured, after `update(now)`, `get_frame(now)` returns
`None` whenever `now` is strictly greater than
`animation_start + totalDuration` (update removes every instance whose start
plus duration is before `now`; at `now` exactly equal to the end the
instance is retained and a sentinel frame is returned). -/
theorem get_frame_none_after_end (s : AnimationController)
    (inst : AnimationInstance) (now : ℕ)
    (hq : s.animations = [inst])
    (hidle : s.idle_animations = [])
    (hend : inst.animation_start + inst.duration < now) :
    (s.update now).get_frame now = none := by
  have hanim : (s.update now).animations = [] := by
    unfold AnimationController.update
    rw [hq]
    rw [if_neg (by simp)]
    simp only [List.filter]
    rw [decide_eq_false (by omega)]
  have hidle' : (s.update now).idle_animations = [] := by
    unfold AnimationController.update
    split <;> simp [hidle]
  unfold AnimationController.get_frame
  rw [hanim]
  simp only [List.head?_nil]
  unfold AnimationController.get_idle_animation
  rw [hidle']
  simp only [List.head?_nil]
  rcases h1 : (s.update now).idle_interval with _ | I <;>
    rcases h2 : (s.update now).idle_start with _ | st <;> rfl

/-- Witness for the amended C5 at a concrete input: the same single-instance
controller queried strictly after the end (`now = 101 > 100`). -/
theorem get_frame_none_after_end_witness :
    (ctrlC5w.update 101).get_frame 101 = none :=
  get_frame_none_after_end ctrlC5w instC5 101 rfl rfl (by decide)

/-- Below the early-return ceiling, the compressed total duration is the sum
of the walked frames. -/
theorem compress_duration_of_lt (inst : AnimationInstance) (t : ℕ)
    (h : inst.max_compression < 100) :
    (inst.compress t).duration =
      sumDur (compressWalk inst.max_compression t inst.animation_start
        inst.frames) := by
  unfold AnimationInstance.compress
  rw [if_neg (by omega)]

/-- Below the early-return ceiling, the compressed movement is the original
movement divided (axis-wise, over the exact-rational model) by the ratio
`k = (duration * max_compression) / (new_duration * 100)`. -/
theorem compress_movement_of_lt (inst : AnimationInstance) (t : ℕ)
    (h : inst.max_compression < 100) :
    (inst.compress t).movement =
      (inst.movement.1 / (((inst.duration * inst.max_compression : ℕ) : ℚ) /
          ((sumDur (compressWalk inst.max_compression t inst.animation_start
            inst.frames) * 100 : ℕ) : ℚ)),
       inst.movement.2 / (((inst.duration * inst.max_compression : ℕ) : ℚ) /
          ((sumDur (compressWalk inst.max_compression t inst.animation_start
            inst.frames) * 100 : ℕ) : ℚ))) := by
  unfold AnimationInstance.compress
  rw [if_neg (by omega)]

/-- Counterexample to C7 as stated: for the instance `instC7` (a single
zero-duration frame, hence `totalDuration = 0`, with movement `(3, 4)` and
ceiling 50 %), compressing at `current_time = 7` (at/past the end of all
frames) empties the new frame list, and the unguarded ratio computation is
`0 as f32 / 0 as f32 = NaN`: the ratio is an undefined value and the new
movement is `(NaN, NaN)` — not a guarded "degenerate already-finished
instance with no further motion". -/
theorem compress_ratio_undefined_at_zero_duration :
    compressRatioClass instC7 7 = F32Class.nan ∧
    compressMovementClass instC7 7 = (F32Class.nan, F32Class.nan) := by
  decide

/-- C7 (amended): the compression-ratio division of `compress` is not
explicitly guarded; when the new frame list sums to zero
(`newTotalDuration == 0`) the behaviour follows IEEE `f32` division.  In the
main case `originalDuration * maxCompressionPercent > 0` the ratio is `+∞`,
the scaled movement collapses to exactly `(0, 0)` and the instance ends with
total duration 0 — a degenerate already-finished instance with no further
motion and no crash.  (Only when `originalDuration * maxCompressionPercent`
is also 0 does the ratio become NaN, per the counterexample.) -/
theorem compress_zero_new_duration_degenerate (inst : AnimationInstance)
    (t : ℕ)
    (hlt : inst.max_compression < 100)
    (hzero : sumDur (compressWalk inst.max_compression t inst.animation_start
      inst.frames) = 0)
    (hnum : 0 < inst.duration * inst.max_compression) :
    compressRatioClass inst t = F32Class.posInf ∧
    compressMovementClass inst t = (F32Class.fin 0, F32Class.fin 0) ∧
    (inst.compress t).duration = 0 ∧
    (inst.compress t).movement = (0, 0) := by
  have hratio : compressRatioClass inst t = F32Class.posInf := by
    unfold compressRatioClass natDivF32
    rw [hzero]
    rw [if_pos (by omega : (0 : ℕ) * 100 = 0), if_neg (by omega)]
  refine ⟨hratio, ?_, ?_, ?_⟩
  · unfold compressMovementClass
    rw [hratio]
    rfl
  · rw [compress_duration_of_lt inst t hlt, hzero]
  · rw [compress_movement_of_lt inst t hlt, hzero]
    norm_num

/-- Witness for the amended C7 at a concrete input: a 10-tick single-frame
instance with ceiling 50 %, compressed at `current_time = 20`, past its
end. -/
theorem compress_zero_new_duration_degenerate_witness :
    instC7w.max_compression < 100 ∧
    sumDur (compressWalk instC7w.max_compression 20 instC7w.animation_start
      instC7w.frames) = 0 ∧
    0 < instC7w.duration * instC7w.max_compression ∧
    (compressRatioClass instC7w 20 = F32Class.posInf ∧
     compressMovementClass instC7w 20 = (F32Class.fin 0, F32Class.fin 0) ∧
     (instC7w.compress 20).duration = 0 ∧
     (instC7w.compress 20).movement = (0, 0)) :=
  ⟨by decide, by decide, by decide,
    compress_zero_new_duration_degenerate instC7w 20 (by decide) (by decide)
      (by decide)⟩

/-- A non-empty list has a last element. -/
theorem exists_getLast?_of_ne_nil :
    ∀ (l : List AnimationInstance), l ≠ [] → ∃ x, l.getLast? = some x
  | [], h => absurd rfl h
  | [a], _ => ⟨a, rfl⟩
  | a :: b :: bs, _ => by
    rw [List.getLast?_cons_cons]
    exact exists_getLast?_of_ne_nil (b :: bs) (by simp)

/-- A fresh instance compressed at its own start time keeps that start
time. -/
theorem new_compress_animation_start (t : ℕ) (tpl : AnimationTemplate)
    (mv pos : ℚ × ℚ) :
    ((AnimationInstance.new t tpl mv pos).compress t).animation_start = t := by
  unfold AnimationInstance.compress
  split <;> rfl

/-- List-level form of the queue invariant preservation: appending an
instance `ni` that starts exactly at the (guardedly compressed) queue's end
preserves exact chaining, and leaves every instance compressed as soon as
the queue holds two instances. -/
theorem QueueInv_add (l : List AnimationInstance) (t : ℕ)
    (hchain : chainedQueue l)
    (hcomp : 2 ≤ l.length → ∀ a ∈ l, a.is_compressed = true)
    (ni : AnimationInstance)
    (hni : ∀ last, (l.map (compressInstanceIfNeeded t)).getLast? = some last →
      ni.animation_start = last.animation_start + last.duration)
    (hnic : ni.is_compressed = true ∨ l = []) :
    chainedQueue (l.map (compressInstanceIfNeeded t) ++ [ni]) ∧
      (2 ≤ (l.map (compressInstanceIfNeeded t) ++ [ni]).length →
        ∀ a ∈ l.map (compressInstanceIfNeeded t) ++ [ni],
          a.is_compressed = true) := by
  constructor
  · rw [chainedQueue, List.chain'_append]
    refine ⟨?_, List.chain'_singleton ni, ?_⟩
    · by_cases hlen : 2 ≤ l.length
      · rw [map_compressInstanceIfNeeded_of_compressed t l (hcomp hlen)]
        exact hchain
      · rcases l with _ | ⟨a, _ | ⟨b, bs⟩⟩
        · exact List.chain'_nil
        · exact List.chain'_singleton _
        · exact absurd (by simp) hlen
    · intro x hx y hy
      simp only [List.head?_cons, Option.mem_def, Option.some.injEq] at hy
      subst hy
      exact hni x hx
  · intro _ a ha
    rcases List.mem_append.mp ha with hmem | hmem
    · obtain ⟨b, _, rfl⟩ := List.mem_map.mp hmem
      exact compressInstanceIfNeeded_is_compressed t b
    · have ha' : a = ni := by simpa using hmem
      subst ha'
      rcases hnic with hc | hnil
      · exact hc
      · subst hnil
        rename_i hlen
        simp at hlen

/-- Every `add_animation` call preserves the queue invariant. -/
theorem add_animation_preserves_QueueInv (s : AnimationController) (t : ℕ)
    (tpl : AnimationTemplate) (mv pos : ℚ × ℚ)
    (h : QueueInv s) : QueueInv (s.add_animation t tpl mv pos) := by
  obtain ⟨hchain, hcomp⟩ := h
  unfold AnimationController.add_animation
  by_cases h0 : tpl.max_compression = 0
  · rw [if_pos h0]; exact ⟨hchain, hcomp⟩
  rw [if_neg h0]
  refine QueueInv_add s.animations t hchain hcomp _ ?_ ?_
  · intro last hl
    have hl' : (s.compress t).animations.getLast? = some last := hl
    rw [hl']
    exact new_compress_animation_start _ tpl mv _
  · rcases hq : s.animations with _ | ⟨a, rest⟩
    · exact Or.inr rfl
    · left
      obtain ⟨last, hl⟩ := exists_getLast?_of_ne_nil
        ((s.compress t).animations) (by simp [AnimationController.compress, hq])
      rw [hl]
      exact compress_is_compressed _ _

/-- C4: starting from a fresh controller, after every sequence of
`add_animation` calls the queue is exactly chained: each adjacent pair of
queued instances satisfies
`next.animation_start = prev.animation_start + prev.duration` — no gaps and
no overlaps, including immediately after the in-flight compression the
non-empty-queue branch performs (since prefixes of call sequences are call
sequences, this covers the state after each call). -/
theorem add_animation_chains_queue (calls : List CallArgs) :
    chainedQueue (applyCalls AnimationController.new calls).animations := by
  have H : ∀ (cs : List CallArgs) (s : AnimationController), QueueInv s →
      QueueInv (applyCalls s cs) := by
    intro cs
    induction cs with
    | nil => intro s hs; exact hs
    | cons c rest ih =>
        intro s hs
        exact ih _ (add_animation_preserves_QueueInv s c.start_time c.template
          c.movement c.start_position hs)
  exact (H calls AnimationController.new
    ⟨List.chain'_nil, fun h2 => absurd h2 (by decide)⟩).1

/-- Characterisation of the idle while-loop: for a positive step the loop
lands on `start + j * step` for some `j ≥ 0`, with the exit condition
`now < result + step`, and either it never stepped (`j = 0`) or its result
is still at or before `now`. -/
theorem idleLoopStart_spec (step now : ℕ) (hstep : 0 < step) (start : ℕ) :
    ∃ j, idleLoopStart step now start = start + j * step ∧
      now < start + j * step + step ∧
      (j = 0 ∨ start + j * step ≤ now) := by
  have main : ∀ (fuel s0 : ℕ), now ≤ s0 + fuel →
      ∃ j, idleLoopStart step now s0 = s0 + j * step ∧
        now < s0 + j * step + step ∧ (j = 0 ∨ s0 + j * step ≤ now) := by
    intro fuel
    induction fuel with
    | zero =>
        intro s0 h0
        refine ⟨0, ?_, by omega, Or.inl rfl⟩
        rw [idleLoopStart.eq_def, dif_neg (by omega)]
        omega
    | succ n ih =>
        intro s0 h0
        by_cases hc : s0 + step ≤ now
        · obtain ⟨j, h1, h2, h3⟩ := ih (s0 + step) (by omega)
          have he : (j + 1) * step = j * step + step := by ring
          refine ⟨j + 1, ?_, by linarith, Or.inr ?_⟩
          · rw [idleLoopStart.eq_def, dif_pos ⟨hstep, hc⟩, h1]
            ring
          · rcases h3 with h3 | h3
            · subst h3
              simpa using hc
            · linarith
        · refine ⟨0, ?_, by omega, Or.inl rfl⟩
          rw [idleLoopStart.eq_def, dif_neg (by tauto)]
          omega
  exact main now start (by omega)

/-- C8: for a controller with an empty queue and the idle interval `I`, an
idle instance (total duration `D = inst.duration`) and the idle anchor
`(T, P)` all set (with `I + D > 0`, without which the source loop does not
terminate), `get_frame(now)` returns a frame exactly when `now` lies in one
of the windows `[T + I + k*(I + D), T + I + k*(I + D) + D)` for some `k ≥ 0`,
and any returned frame's position is exactly the anchor position `P` (idle
animations never move); outside every window it returns `None`. -/
theorem idle_fallback_windows (s : AnimationController) (now I T : ℕ)
    (P : ℚ × ℚ) (inst : IdleInstance)
    (hq : s.animations = [])
    (hI : s.idle_interval = some I)
    (ha : s.idle_animations.head? = some inst)
    (hs : s.idle_start = some ⟨T, P⟩)
    (hstep : 0 < I + inst.duration) :
    (∀ fr, s.get_frame now = some fr → fr.position = P) ∧
    ((s.get_frame now).isSome = true ↔
      ∃ k, T + I + k * (I + inst.duration) ≤ now ∧
        now < T + I + k * (I + inst.duration) + inst.duration) := by
  have hframe : s.get_frame now = s.get_idle_animation now := by
    unfold AnimationController.get_frame
    rw [hq]
    rfl
  obtain ⟨j, hr, hub, hlb⟩ := idleLoopStart_spec (I + inst.duration) now hstep T
  have hidle : s.get_idle_animation now =
      if now < T + j * (I + inst.duration) + I then none
      else some ⟨tileWalk (now - (T + j * (I + inst.duration) + I)) inst.frames,
        P⟩ := by
    unfold AnimationController.get_idle_animation
    rw [hI, ha, hs]
    dsimp only
    rw [hr]
  constructor
  · intro fr hfr
    rw [hframe, hidle] at hfr
    split at hfr
    · exact absurd hfr (by simp)
    · rw [← Option.some.inj hfr]
  · rw [hframe, hidle]
    by_cases hwin : now < T + j * (I + inst.duration) + I
    · rw [if_pos hwin]
      constructor
      · intro hsome
        exact absurd hsome (by simp)
      · rintro ⟨k, hk1, hk2⟩
        exfalso
        have hks : k * (I + inst.duration) < j * (I + inst.duration) := by
          linarith
        have hkj : k < j := lt_of_mul_lt_mul_right hks (Nat.zero_le _)
        rcases hlb with h0 | hjle
        · omega
        · have h1 : k + 1 ≤ j := hkj
          have h2 : (k + 1) * (I + inst.duration) ≤ j * (I + inst.duration) :=
            mul_le_mul_right' h1 (I + inst.duration)
          have h3 : (k + 1) * (I + inst.duration) =
              k * (I + inst.duration) + (I + inst.duration) := by ring
          linarith
    · rw [if_neg hwin]
      refine iff_of_true rfl ⟨j, by omega, by linarith⟩

/-- Witness for C8 at a concrete input: empty queue, idle interval 10 ticks,
5-tick idle instance, anchor `(0, (100, 100))`, queried at `now = 12`
(inside the first idle window `[10, 15)`). -/
theorem idle_fallback_windows_witness :
    (∀ fr, ctrlC8w.get_frame 12 = some fr → fr.position = (100, 100)) ∧
    ((ctrlC8w.get_frame 12).isSome = true ↔
      ∃ k, 0 + 10 + k * (10 + idleInstC8.duration) ≤ 12 ∧
        12 < 0 + 10 + k * (10 + idleInstC8.duration) + idleInstC8.duration) :=
  idle_fallback_windows ctrlC8w 12 10 0 (100, 100) idleInstC8 rfl rfl rfl rfl
    (by decide)
